import Mathlib

/-!
Verification of `deco.py`: stacked function-wrapping decorators
(`countcalls`, `n_ary`, `memo`, `trace`) and the demo functions
`foo`, `bar`, `fib` built from them.

The Python functions are embedded shallowly:
pure wrappers become Lean functions, mutable wrapper attributes
(`wrapper.calls`, `wrapper.results`, `decorator.depth`, printed trace
lines) become explicit state threaded through calls, and raised Python
exceptions become `Except String` values.
-/

namespace Deco

/-! ## `n_ary` (deco.py lines 36-45)

`wrapper(x, *args): return x if not args else func(x, wrapper(*args))`.
The mandatory first parameter `x` plus the star-args tuple become
`x : α` and `args : List α`.  The recursion calls the closure itself
(`wrapper`), not any outer decorated version. -/

def n_ary_wrapper (f : α → α → α) : α → List α → α
  | x, [] => x
  | x, y :: rest => f x (n_ary_wrapper f y rest)

/-- Calling the `n_ary` wrapper with a completely arbitrary argument
tuple: with zero arguments Python raises
`TypeError: wrapper() missing 1 required positional argument: 'x'`
before the body (and hence `func`) can run. -/
def n_ary_call (f : α → α → α) : List α → Except String α
  | [] => Except.error "TypeError: wrapper() missing 1 required positional argument"
  | x :: rest => Except.ok (n_ary_wrapper f x rest)

/-- Instrumented copy of `n_ary_wrapper`: same code, but also counts how
many times the wrapped binary `func` is applied. -/
def n_ary_wrapperInv (f : α → α → α) : α → List α → α × Nat
  | x, [] => (x, 0)
  | x, y :: rest =>
      let (v, c) := n_ary_wrapperInv f y rest
      (f x v, c + 1)

/-- Instrumented copy of `n_ary_call`: also counts applications of `f`. -/
def n_ary_callInv (f : α → α → α) : List α → Except String α × Nat
  | [] => (Except.error "TypeError: wrapper() missing 1 required positional argument", 0)
  | x :: rest =>
      let (v, c) := n_ary_wrapperInv f x rest
      (Except.ok v, c)

/-! ## `memo` (deco.py lines 48-61)

`key = (func, args, tuple(kwargs.items()))`; the dict
`wrapper.results` becomes an association list searched from the front
(insertion order is irrelevant because each key is stored at most once).
`MemoKey` mirrors the Python key: the identity of the wrapped function
(a tag), the positional-argument tuple, the keyword `(name, value)`
pairs. -/

abbrev MemoKey := Nat × List Int × List (String × Int)

/-- Key construction of deco.py line 55: `(func, args, tuple(kwargs.items()))`. -/
def mkKey (funcId : Nat) (args : List Int) (kwargs : List (String × Int)) : MemoKey :=
  (funcId, args, kwargs)

/-- `key in wrapper.results` / `wrapper.results[key]` on the association
list representing the cache dict. -/
def lookupKey [DecidableEq κ] : List (κ × ρ) → κ → Option ρ
  | [], _ => none
  | (a, v) :: rest, k => if k = a then some v else lookupKey rest k

/-- One invocation of the `memo` wrapper (deco.py lines 54-59) over a
pure underlying callable `f`.  Returns the result, the updated cache and
whether the underlying callable was invoked (instrumentation for the
at-most-once guarantee). -/
def memoCall [DecidableEq κ] (f : κ → ρ) (cache : List (κ × ρ)) (k : κ) :
    ρ × List (κ × ρ) × Bool :=
  match lookupKey cache k with
  | some v => (v, cache, false)
  | none => (f k, (k, f k) :: cache, true)

/-- Number of times the underlying callable is invoked at key `k` during
a sequence of wrapper calls `ks`, starting from `cache`. -/
def memoRunCount [DecidableEq κ] (f : κ → ρ) (k : κ) : List κ → List (κ × ρ) → Nat
  | [], _ => 0
  | q :: qs, cache =>
      let r := memoCall f cache q
      (if q = k ∧ r.2.2 = true then 1 else 0) + memoRunCount f k qs r.2.1

theorem lookupKey_insert_self [DecidableEq κ] (cache : List (κ × ρ)) (k : κ) (v : ρ) :
    lookupKey ((k, v) :: cache) k = some v := by
  simp [lookupKey]

theorem lookupKey_insert_ne [DecidableEq κ] (cache : List (κ × ρ)) (k q : κ) (v : ρ)
    (h : k ≠ q) : lookupKey ((q, v) :: cache) k = lookupKey cache k := by
  simp [lookupKey, h]

/-- After any single `memoCall` at key `k`, the cache maps `k` to the
returned result. -/
theorem memoCall_lookup_after [DecidableEq κ] (f : κ → ρ) (cache : List (κ × ρ)) (k : κ) :
    lookupKey (memoCall f cache k).2.1 k = some (memoCall f cache k).1 := by
  unfold memoCall
  cases h : lookupKey cache k with
  | none => simp [lookupKey_insert_self]
  | some v => simp [h]

/-- A cached key stays cached: any run leaves `lookupKey · k` at `some v`. -/
theorem memoRun_preserves_hit [DecidableEq κ] (f : κ → ρ) (k : κ) (v : ρ) :
    ∀ (qs : List κ) (cache : List (κ × ρ)),
      lookupKey cache k = some v → memoRunCount f k qs cache = 0 := by
  intro qs
  induction qs with
  | nil => intro cache _; rfl
  | cons q qs ih =>
      intro cache hv
      unfold memoRunCount memoCall
      cases hq : lookupKey cache q with
      | some w =>
          simp only
          rw [ih cache hv]
          by_cases hqk : q = k
          · subst hqk; rw [hq] at hv; simp
          · simp [hqk]
      | none =>
          simp only
          have hne : q ≠ k := by
            intro h; subst h; rw [hq] at hv; exact Option.noConfusion hv
          rw [ih ((q, f q) :: cache) (by rw [lookupKey_insert_ne cache k q (f q) (Ne.symm hne)]; exact hv)]
          simp [hne]

/-- From a cache with no entry at `k`, the underlying callable is invoked
at key `k` at most once during any run. -/
theorem memoRun_at_most_once [DecidableEq κ] (f : κ → ρ) (k : κ) :
    ∀ (qs : List κ) (cache : List (κ × ρ)),
      lookupKey cache k = none → memoRunCount f k qs cache ≤ 1 := by
  intro qs
  induction qs with
  | nil => intro cache _; exact Nat.zero_le 1
  | cons q qs ih =>
      intro cache hk
      unfold memoRunCount memoCall
      cases hq : lookupKey cache q with
      | some w =>
          simp only
          have hne : ¬ (q = k ∧ false = true) := by simp
          have hrest : memoRunCount f k qs cache ≤ 1 := ih cache hk
          simpa using hrest
      | none =>
          simp only
          by_cases hqk : q = k
          · subst hqk
            have hzero : memoRunCount f q qs ((q, f q) :: cache) = 0 :=
              memoRun_preserves_hit f q (f q) qs _ (lookupKey_insert_self cache q (f q))
            simp [hzero]
          · have hk2 : lookupKey ((q, f q) :: cache) k = none := by
              rw [lookupKey_insert_ne cache k q (f q) (fun h => hqk h.symm)]; exact hk
            have hrest := ih ((q, f q) :: cache) hk2
            simpa [hqk] using hrest

/-! ## `countcalls` (deco.py lines 25-33) and the demo stacks `foo`, `bar`

`functools.update_wrapper(wrapper, func)` copies `func.__dict__` into
`wrapper.__dict__`.  Consequences embedded below:

* `foo = memo(countcalls(n_ary(add)))` (lines 103-107).  The name `foo`
  is the memo wrapper; its visible `foo.calls` attribute is a *copy* of
  the countcalls wrapper's live counter, refreshed by the
  `update_wrapper(wrapper, func)` on line 58 — which runs only on a
  cache miss, after a successful computation.
* `bar = countcalls(memo(n_ary(mul)))` (lines 110-114).  The name `bar`
  is the countcalls wrapper, so `bar.calls` is the live counter itself,
  incremented on line 29 before anything else happens. -/

def fooFuncId : Nat := 0
def barFuncId : Nat := 1

def fooKey (args : List Int) : MemoKey := mkKey fooFuncId args []
def barKey (args : List Int) : MemoKey := mkKey barFuncId args []

structure FooState where
  results : List (MemoKey × Int)
  innerCalls : Nat
  fooCalls : Nat
  deriving DecidableEq

def fooInit : FooState := ⟨[], 0, 0⟩

/-- One invocation of `foo(*args)`.  Memo layer first (outermost); on a
miss, the countcalls wrapper increments its counter (line 29) and then
delegates to the `n_ary` adder; if that succeeds the result is cached
and line 58 refreshes the copied `calls` attribute. -/
def fooCall (s : FooState) (args : List Int) : Except String Int × FooState :=
  match lookupKey s.results (fooKey args) with
  | some v => (Except.ok v, s)
  | none =>
      let inner := s.innerCalls + 1
      match n_ary_call (fun a b => a + b) args with
      | Except.error e => (Except.error e, { s with innerCalls := inner })
      | Except.ok v =>
          (Except.ok v,
           { results := (fooKey args, v) :: s.results, innerCalls := inner, fooCalls := inner })

structure BarState where
  results : List (MemoKey × Int)
  calls : Nat
  deriving DecidableEq

def barInit : BarState := ⟨[], 0⟩

/-- One invocation of `bar(*args)`.  Countcalls layer first (outermost):
`wrapper.calls += 1` on line 29, then the memo layer over the `n_ary`
multiplier. -/
def barCall (s : BarState) (args : List Int) : Except String Int × BarState :=
  let c := s.calls + 1
  match lookupKey s.results (barKey args) with
  | some v => (Except.ok v, ⟨s.results, c⟩)
  | none =>
      match n_ary_call (fun a b => a * b) args with
      | Except.error e => (Except.error e, ⟨s.results, c⟩)
      | Except.ok v => (Except.ok v, ⟨(barKey args, v) :: s.results, c⟩)

/-- A sequence of `bar` invocations. -/
def barRun : BarState → List (List Int) → BarState
  | s, [] => s
  | s, a :: rest => barRun (barCall s a).2 rest

theorem barCall_calls (s : BarState) (args : List Int) :
    (barCall s args).2.calls = s.calls + 1 := by
  unfold barCall
  cases h : lookupKey s.results (barKey args) with
  | some v => simp
  | none =>
      cases hn : n_ary_call (fun a b => a * b) args with
      | error e => simp
      | ok v => simp

theorem barRun_calls (argss : List (List Int)) :
    ∀ s : BarState, (barRun s argss).calls = s.calls + argss.length := by
  induction argss with
  | nil => intro s; rfl
  | cons a rest ih =>
      intro s
      unfold barRun
      rw [ih (barCall s a).2, barCall_calls]
      simp [List.length]
      omega

/-! ## `trace` (deco.py lines 64-101) and `fib` (lines 118-127)

`print(a, b, c, ...)` joins its arguments with single spaces, so the
entry line of line 93 is the string
`(tab * depth) ++ " --> " ++ func.__name__ ++ " (" ++ full_str ++ ")"` —
note the space *between the name and the parenthesised arguments*,
because `func.__name__` and `'(%s)' % full_str` are separate `print`
arguments.  `decorator.depth` is incremented on line 92 *before* the
entry line is printed, so the outermost call is already printed with one
copy of `tab`. -/

/-- `tab * depth` (Python string repetition). -/
def repeatStr (tab : String) : Nat → String
  | 0 => ""
  | n + 1 => tab ++ repeatStr tab n

/-- The entry line printed by deco.py line 93:
`print(tab * decorator.depth, '-->', func.__name__, '(%s)' % full_str)`. -/
def entryLine (tab : String) (depth : Nat) (name fullStr : String) : String :=
  repeatStr tab depth ++ " --> " ++ name ++ " (" ++ fullStr ++ ")"

/-- The exit line printed by deco.py line 95:
`print(tab * decorator.depth, '<--', func.__name__, '(%s)' % full_str, '==', result)`. -/
def exitLine (tab : String) (depth : Nat) (name fullStr resultStr : String) : String :=
  repeatStr tab depth ++ " <-- " ++ name ++ " (" ++ fullStr ++ ") == " ++ resultStr

/-- `','.join(...)`. -/
def joinComma : List String → String
  | [] => ""
  | [x] => x
  | x :: y :: rest => x ++ "," ++ joinComma (y :: rest)

/-- `args_str = ','.join([str(arg) for arg in args])` (line 86),
specialised to integer arguments as in the demo. -/
def argsStr (args : List Int) : String :=
  joinComma (args.map toString)

/-- Python tuple unpacking `key, value = s` of a string `s`: iterating a
string yields its characters, so it succeeds exactly when `s` has two
characters. -/
def unpackPair (s : String) : Except String (String × String) :=
  match s.data with
  | [a, b] => Except.ok (String.mk [a], String.mk [b])
  | [] => Except.error "ValueError: not enough values to unpack"
  | [_] => Except.error "ValueError: not enough values to unpack"
  | _ => Except.error "ValueError: too many values to unpack"

/-- Helper for `tracedKwargsStr`: renders each element of the iterated
sequence via `'%s=%s' % (key, str(value))` after the unpacking
`for key, value in ...`. -/
def tracedKwargsParts : List String → Except String (List String)
  | [] => Except.ok []
  | k :: rest =>
      match unpackPair k with
      | Except.error e => Except.error e
      | Except.ok (a, b) =>
          match tracedKwargsParts rest with
          | Except.error e => Except.error e
          | Except.ok tail => Except.ok ((a ++ "=" ++ b) :: tail)

/-- `kwargs_str = ','.join(['%s=%s' % (key, str(value)) for key, value in kwargs])`
(deco.py line 87).  Iterating the dict `kwargs` yields its *key strings*
only, so each key string is itself unpacked into `(key, value)`:
a `ValueError` unless every key has exactly two characters. -/
def tracedKwargsStr (kwargs : List (String × Int)) : Except String String :=
  match tracedKwargsParts (kwargs.map Prod.fst) with
  | Except.error e => Except.error e
  | Except.ok parts => Except.ok (joinComma parts)

/-- `full_str` (deco.py lines 88-91): join of positional and keyword
renderings, with a comma between them only when both are non-empty. -/
def fullStr (args : List Int) (kwargs : List (String × Int)) : Except String String :=
  match tracedKwargsStr kwargs with
  | Except.error e => Except.error e
  | Except.ok kstr =>
      let astr := argsStr args
      if astr ≠ "" ∧ kstr ≠ "" then Except.ok (astr ++ "," ++ kstr)
      else Except.ok (astr ++ kstr)

/-- State threaded through a call of the decorated `fib`
(deco.py lines 118-127): the countcalls counter `fib.calls`, the
tracer's `decorator.depth`, the trace lines printed so far, and the
memo cache.  The memo key `(fib_raw, (n,), ())` has constant first and
third components inside this one wrapper, so the cache is keyed by `n`. -/
structure FibState where
  calls : Nat
  depth : Nat
  lines : List String
  cache : List (Nat × Nat)
  deriving DecidableEq

def fibInit : FibState := ⟨0, 0, [], []⟩

/-- The tracer's indentation unit for `fib`: `@trace("####")` (line 119). -/
def fibTab : String := "####"

/-- One invocation of the decorated `fib(n)`:
countcalls (line 29), then the tracer (lines 85-97), then memo
(lines 54-59) around the raw body `1 if n <= 1 else fib(n-1) + fib(n-2)`
(line 127), whose recursive calls resolve to the module-level name `fib`
— the fully decorated function — so they re-enter this very definition.
`fuel` bounds the recursion depth (Python would raise `RecursionError`
when its stack limit is exceeded); `none` models fuel exhaustion. -/
def fibCall : Nat → Nat → FibState → Option (Nat × FibState)
  | 0, _, _ => none
  | fuel + 1, n, s0 =>
      let s1 : FibState := { s0 with calls := s0.calls + 1 }
      let astr : String := toString n
      let s2 : FibState := { s1 with depth := s1.depth + 1 }
      let s3 : FibState := { s2 with lines := s2.lines ++ [entryLine fibTab s2.depth "fib" astr] }
      let inner : Option (Nat × FibState) :=
        match lookupKey s3.cache n with
        | some v => some (v, s3)
        | none =>
            let body : Option (Nat × FibState) :=
              if n ≤ 1 then some (1, s3)
              else
                match fibCall fuel (n - 1) s3 with
                | none => none
                | some (a, sa) =>
                    match fibCall fuel (n - 2) sa with
                    | none => none
                    | some (b, sb) => some (a + b, sb)
            match body with
            | none => none
            | some (v, sv) => some (v, { sv with cache := (n, v) :: sv.cache })
      match inner with
      | none => none
      | some (r, s4) =>
          some (r, { s4 with
                      lines := s4.lines ++ [exitLine fibTab s4.depth "fib" astr (toString r)],
                      depth := s4.depth - 1 })

/-- The mathematical Fibonacci function of the spec:
`fib(0) = fib(1) = 1`, `fib(n) = fib(n-1) + fib(n-2)`. -/
def fibSpec : Nat → Nat
  | 0 => 1
  | 1 => 1
  | n + 2 => fibSpec (n + 1) + fibSpec n



/-! ## Helper lemmas -/

/-- The instrumented `n_ary` wrapper computes the same value as the
plain embedding. -/
theorem n_ary_wrapperInv_fst {α : Type} (f : α → α → α) :
    ∀ (x : α) (args : List α), (n_ary_wrapperInv f x args).1 = n_ary_wrapper f x args := by
  intro x args
  induction args generalizing x with
  | nil => rfl
  | cons y rest ih => simp [n_ary_wrapperInv, n_ary_wrapper, ih y]

/-- A `memoCall` on a key already in the cache is a pure hit: the cached
value is returned, the cache is unchanged, the underlying callable is
not invoked. -/
theorem memoCall_hit {κ ρ : Type} [DecidableEq κ] (f : κ → ρ) (cache : List (κ × ρ))
    (k : κ) (v : ρ) (h : lookupKey cache k = some v) :
    memoCall f cache k = (v, cache, false) := by
  simp [memoCall, h]

/-! ## Claim theorems -/

/-- Claim C1: the demo functions return `foo(4,3) == 7`, `foo(4,3,2) == 9`,
`bar(4,3) == 12`, `bar(4,3,2,1) == 24` (invoked in `main`'s order), and
`fib(5) == 8`, where `fib` satisfies `fib(0) = fib(1) = 1` and
`fib(n) = fib(n-1) + fib(n-2)` otherwise. -/
theorem demo_end_to_end_values :
    (fooCall fooInit [4, 3]).1 = Except.ok 7 ∧
    (fooCall (fooCall fooInit [4, 3]).2 [4, 3, 2]).1 = Except.ok 9 ∧
    (barCall barInit [4, 3]).1 = Except.ok 12 ∧
    (barCall (barRun barInit [[4, 3], [4, 3, 2]]) [4, 3, 2, 1]).1 = Except.ok 24 ∧
    (fibCall 20 5 fibInit).map (fun p => p.1) = some (fibSpec 5) ∧
    fibSpec 5 = 8 ∧ fibSpec 0 = 1 ∧ fibSpec 1 = 1 ∧
    (∀ n : Nat, fibSpec (n + 2) = fibSpec (n + 1) + fibSpec n) :=
  ⟨rfl, rfl, rfl, rfl, by decide, by decide, rfl, rfl, fun _ => rfl⟩

/-- Claim C2: for every binary `f`, the variadic `g = n_ary(f)` satisfies
`g(x) = x` for a single argument without calling `f` (the instrumented
copy records zero applications of `f`), `g(x, y) = f(x, y)`, and for
three or more arguments `g(x, y, z, ...) = f(x, g(y, z, ...))` — a
right-associative pairwise fold. -/
theorem n_ary_contract {α : Type} (f : α → α → α) (x y z : α) (rest : List α) :
    n_ary_wrapper f x [] = x ∧
    (n_ary_wrapperInv f x []).2 = 0 ∧
    n_ary_wrapper f x [y] = f x y ∧
    n_ary_wrapper f x (y :: z :: rest) = f x (n_ary_wrapper f y (z :: rest)) :=
  ⟨rfl, rfl, rfl, rfl⟩

/-- Witness for C2 at `f = Nat.add`, `x = 1`, `y = 2`, `z = 3`, `rest = [4]`. -/
theorem n_ary_contract_witness :
    n_ary_wrapper Nat.add 1 [] = 1 ∧
    (n_ary_wrapperInv Nat.add 1 []).2 = 0 ∧
    n_ary_wrapper Nat.add 1 [2] = Nat.add 1 2 ∧
    n_ary_wrapper Nat.add 1 (2 :: 3 :: [4]) = Nat.add 1 (n_ary_wrapper Nat.add 2 (3 :: [4])) :=
  n_ary_contract Nat.add 1 2 3 [4]

/-- Claim C3: for a memoized function and a fixed key, the underlying
callable is invoked at most once over the wrapper's lifetime (a fresh,
empty cache), and a repeated call with an identical key does not invoke
the underlying callable and returns the first call's result with the
cache unchanged. -/
theorem memo_at_most_once {κ ρ : Type} [DecidableEq κ] (f : κ → ρ) (k : κ)
    (qs : List κ) (cache : List (κ × ρ)) :
    memoRunCount f k qs [] ≤ 1 ∧
    memoCall f (memoCall f cache k).2.1 k =
      ((memoCall f cache k).1, (memoCall f cache k).2.1, false) :=
  ⟨memoRun_at_most_once f k qs [] rfl,
   memoCall_hit f (memoCall f cache k).2.1 k (memoCall f cache k).1
     (memoCall_lookup_after f cache k)⟩

/-- Witness for C3 at the concrete key `(0, [4,3], [])` over a run that
repeats it three times. -/
theorem memo_at_most_once_witness :
    memoRunCount (fun k : MemoKey => k.2.1.length) (mkKey 0 [4, 3] [])
      [mkKey 0 [4, 3] [], mkKey 0 [4, 3] [], mkKey 0 [4, 3] []] [] ≤ 1 ∧
    memoCall (fun k : MemoKey => k.2.1.length)
        (memoCall (fun k : MemoKey => k.2.1.length) [] (mkKey 0 [4, 3] [])).2.1
        (mkKey 0 [4, 3] []) =
      ((memoCall (fun k : MemoKey => k.2.1.length) [] (mkKey 0 [4, 3] [])).1,
       (memoCall (fun k : MemoKey => k.2.1.length) [] (mkKey 0 [4, 3] [])).2.1, false) :=
  memo_at_most_once (fun k : MemoKey => k.2.1.length) (mkKey 0 [4, 3] [])
    [mkKey 0 [4, 3] [], mkKey 0 [4, 3] [], mkKey 0 [4, 3] []] []

/-- Claim C4: memo cache keys are structurally exact, with no
normalization: keys differing in arity (`(4,3)` vs `(4,3,2)`), in
argument order (`(4,3)` vs `(3,4)`), or only in positional-vs-keyword
passing (`(4,3)` vs `(4, b=3)`) are distinct, and two calls with
distinct keys each invoke the underlying callable independently. -/
theorem memo_keys_exact {κ ρ : Type} [DecidableEq κ] (fid : Nat) (f : κ → ρ)
    (k1 k2 : κ) (h : k1 ≠ k2) :
    mkKey fid [4, 3] [] ≠ mkKey fid [4, 3, 2] [] ∧
    mkKey fid [4, 3] [] ≠ mkKey fid [3, 4] [] ∧
    mkKey fid [4, 3] [] ≠ mkKey fid [4] [("b", 3)] ∧
    memoRunCount f k1 [k1, k2] [] = 1 ∧
    memoRunCount f k2 [k1, k2] [] = 1 := by
  refine ⟨by simp [mkKey], by simp [mkKey], by simp [mkKey], ?_, ?_⟩
  · simp [memoRunCount, memoCall, lookupKey, Ne.symm h]
  · simp [memoRunCount, memoCall, lookupKey, h, Ne.symm h]

/-- Witness for C4 at the keys for `memoized(4,3)` and `memoized(4,3,2)`. -/
theorem memo_keys_exact_witness :
    mkKey 1 [4, 3] [] ≠ mkKey 1 [4, 3, 2] [] ∧
    mkKey 1 [4, 3] [] ≠ mkKey 1 [3, 4] [] ∧
    mkKey 1 [4, 3] [] ≠ mkKey 1 [4] [("b", 3)] ∧
    memoRunCount (fun k : MemoKey => k.2.1.length) (mkKey 1 [4, 3] [])
      [mkKey 1 [4, 3] [], mkKey 1 [4, 3, 2] []] [] = 1 ∧
    memoRunCount (fun k : MemoKey => k.2.1.length) (mkKey 1 [4, 3, 2] [])
      [mkKey 1 [4, 3] [], mkKey 1 [4, 3, 2] []] [] = 1 :=
  memo_keys_exact 1 (fun k : MemoKey => k.2.1.length)
    (mkKey 1 [4, 3] []) (mkKey 1 [4, 3, 2] []) (by decide)

/-- Claim C5: `bar`'s counter is the outermost wrapper, so any `N`
invocations increase `bar.calls` by exactly `N` regardless of cache
hits; `foo`'s memoizer is outermost, so a repeated invocation with
identical arguments (a cache hit) leaves `foo.calls` — indeed the whole
`foo` state — unchanged. -/
theorem counter_order_dependence (s : BarState) (argss : List (List Int))
    (t : FooState) (args : List Int) (v : Int)
    (h : lookupKey t.results (fooKey args) = some v) :
    (barRun s argss).calls = s.calls + argss.length ∧
    (fooCall t args).2.fooCalls = t.fooCalls ∧
    (fooCall t args).2 = t := by
  refine ⟨barRun_calls argss s, ?_, ?_⟩ <;> simp [fooCall, h]

/-- Witness for C5: two `bar` calls (the second a cache hit) add 2 to
the counter; a `foo` cache hit at `(4,3)` leaves the state untouched. -/
theorem counter_order_dependence_witness :
    (barRun barInit ([[4, 3], [4, 3]] : List (List Int))).calls =
      barInit.calls + ([[4, 3], [4, 3]] : List (List Int)).length ∧
    (fooCall ⟨[(fooKey [4, 3], 7)], 1, 1⟩ [4, 3]).2.fooCalls =
      (⟨[(fooKey [4, 3], 7)], 1, 1⟩ : FooState).fooCalls ∧
    (fooCall ⟨[(fooKey [4, 3], 7)], 1, 1⟩ [4, 3]).2 =
      (⟨[(fooKey [4, 3], 7)], 1, 1⟩ : FooState) :=
  counter_order_dependence barInit [[4, 3], [4, 3]]
    ⟨[(fooKey [4, 3], 7)], 1, 1⟩ [4, 3] 7 (by decide)

/-- Claim C6 (code bug): the trace lines actually emitted.  `print`
separates its arguments with spaces, so the entry line for `fib(3)` at
depth 1 is `"#### --> fib (3)"` — with a space between the function
name and the parenthesised arguments — and the outermost call of a real
run already carries one copy of the tab, while the claim and the
docstring of `trace` (deco.py lines 71-81) specify `fib(3)` with no
space and an outermost line ` --> fib(3)` with no tab. -/
theorem trace_line_spacing :
    entryLine "####" 1 "fib" "3" = "#### --> fib (3)" ∧
    exitLine "####" 1 "fib" "3" "3" = "#### <-- fib (3) == 3" ∧
    (fibCall 20 3 fibInit).map (fun p => p.2.lines.head?) =
      some (some "#### --> fib (3)") ∧
    entryLine "####" 1 "fib" "3" ≠ "#### --> fib(3)" :=
  ⟨rfl, rfl, by decide, by decide⟩

/-- Claim C7, counterexample: `fib(3)` on a fresh cache produces ten
trace lines, not nine. -/
theorem fib3_trace_not_nine_lines :
    (fibCall 20 3 fibInit).map (fun p => p.2.lines.length) = some 10 ∧
    (fibCall 20 3 fibInit).map (fun p => p.2.lines.length) ≠ some 9 := by
  constructor <;> decide

/-- Claim C7 as amended: `fib(3)` on a fresh cache produces exactly ten
trace lines — an entry/exit pair for each of the five invocations
(arguments 3, 2, 1, 0 and a repeated, memoized 1), every entry paired
with a same-depth exit for the same call. -/
theorem fib3_trace_lines :
    (fibCall 20 3 fibInit).map (fun p => p.2.lines) =
      some ["#### --> fib (3)",
            "######## --> fib (2)",
            "############ --> fib (1)",
            "############ <-- fib (1) == 1",
            "############ --> fib (0)",
            "############ <-- fib (0) == 1",
            "######## <-- fib (2) == 2",
            "######## --> fib (1)",
            "######## <-- fib (1) == 1",
            "#### <-- fib (3) == 3"] := by decide

/-- Claim C8 (code bug): deco.py line 87 iterates `kwargs` itself — the
dict's key strings — and unpacks each key string into `(key, value)`.
A one-character keyword name such as `n` therefore raises `ValueError`
instead of rendering `n=3`, and a two-character name `ab` renders as
`a=b` (its two characters), not as `ab=5`. -/
theorem trace_kwargs_iteration :
    tracedKwargsStr [("n", 3)] = Except.error "ValueError: not enough values to unpack" ∧
    tracedKwargsStr [("ab", 5)] = Except.ok "a=b" ∧
    tracedKwargsStr [("ab", 5)] ≠ Except.ok "ab=5" := by
  refine ⟨rfl, rfl, ?_⟩
  intro h
  exact absurd (Except.ok.inj h) (by decide)

/-- Claim C9: recursive calls in `fib`'s body resolve to the fully
decorated `fib`, so every invocation — cache hits included — passes
through the counter and the tracer: a single top-level `fib(5)` on a
fresh cache returns 8, leaves `fib.calls == 9`, and prints 18 trace
lines (an entry and an exit for each of the 9 invocations). -/
theorem fib_recursion_through_wrappers :
    (fibCall 20 5 fibInit).map (fun p => (p.1, p.2.calls, p.2.lines.length)) =
      some (8, 9, 18) := by decide

/-- Claim C10: calling an `n_ary`-adapted function with zero arguments
raises a `TypeError` for the missing required positional argument `x`,
without invoking the underlying binary function (the instrumented copy
records zero applications of `f`). -/
theorem n_ary_zero_args {α : Type} (f : α → α → α) :
    n_ary_call f [] = Except.error "TypeError: wrapper() missing 1 required positional argument" ∧
    (n_ary_callInv f []).2 = 0 :=
  ⟨rfl, rfl⟩

/-- Witness for C10 at `f = Nat.mul`. -/
theorem n_ary_zero_args_witness :
    n_ary_call Nat.mul [] = Except.error "TypeError: wrapper() missing 1 required positional argument" ∧
    (n_ary_callInv Nat.mul []).2 = 0 :=
  n_ary_zero_args Nat.mul

end Deco
